import Mathlib

/-!
Shallow embedding of `src/ESP32.py`: the R660 wheel/pedal HID report decoder.

The Python script's `sniff_data` loop body (lines 65-104) filters 8-byte HID
reports by their tag byte, reconstructs an absolute steering position from a
wrapping 8-bit relative encoder sample, and normalizes the pedal axes.
Reports are modelled as `List Nat` (Python list of ints, indexed with the
`*_BYTE_INDEX` constants); Python's unbounded ints become `Int`; the two loop
state variables `last_steer_raw` / `steer_position` become the fields of
`DecoderState`; one loop iteration on a non-empty packet becomes `sniff_step`.
-/

namespace ESP32

/-- Byte index of the report-type tag (`REPORT_ID_BYTE_INDEX = 0`). -/
def REPORT_ID_BYTE_INDEX : Nat := 0

/-- Byte index of the raw steering sample (`STEER_BYTE_INDEX = 1`). -/
def STEER_BYTE_INDEX : Nat := 1

/-- Byte index of the raw gas sample (`GAS_BYTE_INDEX = 3`). -/
def GAS_BYTE_INDEX : Nat := 3

/-- Byte index of the raw brake sample (`BRAKE_BYTE_INDEX = 4`). -/
def BRAKE_BYTE_INDEX : Nat := 4

/-- Lower steering clamp limit (`STEER_MIN = -2045`). -/
def STEER_MIN : Int := -2045

/-- Upper steering clamp limit (`STEER_MAX = 2045`). -/
def STEER_MAX : Int := 2045

/-- The decoder's persistent state: the loop variables `last_steer_raw`
(initially `None`) and `steer_position` (initially `0`) of `sniff_data`. -/
structure DecoderState where
  last_steer_raw : Option Nat
  steer_position : Int
deriving Repr, DecidableEq

/-- The initial decoder state: `last_steer_raw = None`, `steer_position = 0`
(lines 62-63 of the source). -/
def initState : DecoderState := { last_steer_raw := none, steer_position := 0 }

/-- One emitted reading: the triple printed on line 104 of the source. -/
structure AxisReading where
  steering : Int
  gas : Int
  brake : Int
deriving Repr, DecidableEq

/-- Report Filter predicate: line 75 of the source accepts a packet exactly
when `data[REPORT_ID_BYTE_INDEX] == 0x07`. -/
def accepts (data : List Nat) : Bool :=
  data.getD REPORT_ID_BYTE_INDEX 0 == 0x07

/-- Wrap-around corrected steering delta, lines 85-89 of the source:
`delta = current - last`, minus 256 when `delta > 127`, plus 256 when
`delta < -127`. -/
def wrapDelta (last_steer_raw current_steer_raw : Nat) : Int :=
  let delta : Int := (current_steer_raw : Int) - (last_steer_raw : Int)
  if delta > 127 then delta - 256
  else if delta < -127 then delta + 256
  else delta

/-- Clamp to the device limits, line 94 of the source:
`max(STEER_MIN, min(STEER_MAX, steer_position))`. -/
def clamp (steer_position : Int) : Int :=
  max STEER_MIN (min STEER_MAX steer_position)

/-- Steering reconstruction, lines 80-95 of the source: when a previous raw
sample exists, accumulate the wrap-corrected delta and clamp; in both cases
record the current raw sample as `last_steer_raw`. -/
def decodeSteer (s : DecoderState) (current_steer_raw : Nat) : DecoderState :=
  match s.last_steer_raw with
  | some last_steer_raw =>
      let delta := wrapDelta last_steer_raw current_steer_raw
      let steer_position := clamp (s.steer_position + delta)
      { last_steer_raw := some current_steer_raw, steer_position := steer_position }
  | none =>
      { last_steer_raw := some current_steer_raw, steer_position := s.steer_position }

/-- One iteration of the read loop on a non-empty packet, lines 75-104 of the
source: a packet whose tag byte differs from `0x07` is skipped (state
untouched, nothing emitted); otherwise the steering state is updated and the
reading `(steer_position, 255 - gas byte, 255 - brake byte)` is emitted. -/
def sniff_step (s : DecoderState) (data : List Nat) : DecoderState × Option AxisReading :=
  if data.getD REPORT_ID_BYTE_INDEX 0 ≠ 0x07 then (s, none)
  else
    let current_steer_raw := data.getD STEER_BYTE_INDEX 0
    let s' := decodeSteer s current_steer_raw
    let gas_value : Int := 255 - (data.getD GAS_BYTE_INDEX 0 : Int)
    let brake_value : Int := 255 - (data.getD BRAKE_BYTE_INDEX 0 : Int)
    (s', some { steering := s'.steer_position, gas := gas_value, brake := brake_value })

/-- Folding `sniff_step` over a sequence of packets, tracking only the state. -/
def sniff_run (s : DecoderState) (packets : List (List Nat)) : DecoderState :=
  packets.foldl (fun st d => (sniff_step st d).1) s

lemma le_clamp (x : Int) : STEER_MIN ≤ clamp x :=
  le_max_left _ _

lemma clamp_le (x : Int) : clamp x ≤ STEER_MAX := by
  unfold clamp STEER_MIN STEER_MAX
  rcases le_total (2045 : Int) x with h | h <;> simp [max_le_iff, min_le_iff]

lemma clamp_of_mem (x : Int) (h1 : STEER_MIN ≤ x) (h2 : x ≤ STEER_MAX) : clamp x = x := by
  unfold clamp
  rw [min_eq_right h2, max_eq_right h1]

lemma sniff_step_fst_pos_inv (s : DecoderState) (d : List Nat)
    (h1 : STEER_MIN ≤ s.steer_position) (h2 : s.steer_position ≤ STEER_MAX) :
    STEER_MIN ≤ (sniff_step s d).1.steer_position ∧
      (sniff_step s d).1.steer_position ≤ STEER_MAX := by
  unfold sniff_step
  split
  · exact ⟨h1, h2⟩
  · unfold decodeSteer
    cases s.last_steer_raw with
    | none => exact ⟨h1, h2⟩
    | some last => exact ⟨le_clamp _, clamp_le _⟩

lemma sniff_run_pos_inv (packets : List (List Nat)) :
    ∀ s : DecoderState, STEER_MIN ≤ s.steer_position → s.steer_position ≤ STEER_MAX →
      STEER_MIN ≤ (sniff_run s packets).steer_position ∧
        (sniff_run s packets).steer_position ≤ STEER_MAX := by
  induction packets with
  | nil => exact fun s h1 h2 => ⟨h1, h2⟩
  | cons d rest ih =>
      intro s h1 h2
      have hstep := sniff_step_fst_pos_inv s d h1 h2
      exact ih _ hstep.1 hstep.2

lemma sniff_step_rejected (s : DecoderState) (d : List Nat) (h : accepts d = false) :
    sniff_step s d = (s, none) := by
  unfold sniff_step
  rw [if_pos]
  intro hc
  simp only [accepts] at h
  rw [hc] at h
  simp at h

lemma sniff_run_all_rejected (packets : List (List Nat)) :
    ∀ s : DecoderState, (∀ d ∈ packets, accepts d = false) → sniff_run s packets = s := by
  induction packets with
  | nil => intro s _; rfl
  | cons d rest ih =>
      intro s hall
      have hd : accepts d = false := hall d (List.mem_cons_self d rest)
      show sniff_run (sniff_step s d).1 rest = s
      rw [sniff_step_rejected s d hd]
      exact ih s fun e he => hall e (List.mem_cons_of_mem d he)

lemma sniff_step_accepted (s : DecoderState) (d : List Nat) (h : accepts d = true) :
    sniff_step s d =
      ((decodeSteer s (d.getD STEER_BYTE_INDEX 0)),
        some { steering := (decodeSteer s (d.getD STEER_BYTE_INDEX 0)).steer_position
               gas := 255 - (d.getD GAS_BYTE_INDEX 0 : Int)
               brake := 255 - (d.getD BRAKE_BYTE_INDEX 0 : Int) }) := by
  simp only [accepts, beq_iff_eq] at h
  unfold sniff_step
  rw [if_neg (not_not_intro h)]

/-- C3: starting from the initial state (position 0), after decoding any
sequence of packets the accumulated steering position lies within
`[STEER_MIN, STEER_MAX] = [-2045, 2045]`. -/
theorem c3_position_invariant (packets : List (List Nat)) :
    STEER_MIN ≤ (sniff_run initState packets).steer_position ∧
      (sniff_run initState packets).steer_position ≤ STEER_MAX := by
  exact sniff_run_pos_inv packets initState (by decide) (by decide)

/-- C4: from the fresh state (`last_steer_raw` absent, position 0), any first
qualifying report yields steering output 0, leaves the position at 0, and
records the report's steering byte as `last_steer_raw`. -/
theorem c4_first_report (data : List Nat) (hacc : accepts data = true) :
    (sniff_step initState data).1.steer_position = 0 ∧
      (sniff_step initState data).1.last_steer_raw
        = some (data.getD STEER_BYTE_INDEX 0) ∧
      ((sniff_step initState data).2.map AxisReading.steering) = some 0 := by
  rw [sniff_step_accepted initState data hacc]
  simp [decodeSteer, initState]

theorem c4_first_report_witness :
    (sniff_step initState [0x07, 123, 0, 0, 0, 0, 0, 0]).1.steer_position = 0 ∧
      (sniff_step initState [0x07, 123, 0, 0, 0, 0, 0, 0]).1.last_steer_raw = some 123 ∧
      ((sniff_step initState [0x07, 123, 0, 0, 0, 0, 0, 0]).2.map AxisReading.steering)
        = some 0 := by
  have h := c4_first_report [0x07, 123, 0, 0, 0, 0, 0, 0] (by decide)
  simpa using h

/-- C6: the Report Filter accepts a packet iff its tag byte equals `0x07`,
and the loop body emits a reading exactly when the filter accepts. -/
theorem c6_filter_tag (s : DecoderState) (data : List Nat) :
    (accepts data = true ↔ data.getD REPORT_ID_BYTE_INDEX 0 = 0x07) ∧
      (sniff_step s data).2.isSome = accepts data := by
  constructor
  · simp [accepts]
  · by_cases h : accepts data = true
    · rw [sniff_step_accepted s data h, h]
      rfl
    · rw [sniff_step_rejected s data (Bool.not_eq_true _ ▸ h)]
      simp [Bool.not_eq_true] at h
      rw [h]
      rfl

/-- C7: a non-qualifying report (tag byte not `0x07`) is not decoded and
leaves the state unchanged, and any sequence of non-qualifying reports leaves
both `position` and `last_steer_raw` unchanged. -/
theorem c7_filter_no_mutation (s : DecoderState) (data : List Nat)
    (packets : List (List Nat)) (h : accepts data = false)
    (hall : ∀ d ∈ packets, accepts d = false) :
    (sniff_step s data).1 = s ∧ (sniff_step s data).2 = none ∧
      sniff_run s packets = s := by
  refine ⟨?_, ?_, sniff_run_all_rejected packets s hall⟩
  · rw [sniff_step_rejected s data h]
  · rw [sniff_step_rejected s data h]

theorem c7_filter_no_mutation_witness :
    (sniff_step ⟨some 42, 17⟩ [0x01, 9, 0, 3, 4, 0, 0, 0]).1 = ⟨some 42, 17⟩ ∧
      (sniff_step ⟨some 42, 17⟩ [0x01, 9, 0, 3, 4, 0, 0, 0]).2 = none ∧
      sniff_run ⟨some 42, 17⟩
        [[0x01, 9, 0, 3, 4, 0, 0, 0], [0x03, 1, 2, 3, 4, 5, 6, 7]] = ⟨some 42, 17⟩ := by
  exact c7_filter_no_mutation ⟨some 42, 17⟩ [0x01, 9, 0, 3, 4, 0, 0, 0]
    [[0x01, 9, 0, 3, 4, 0, 0, 0], [0x03, 1, 2, 3, 4, 5, 6, 7]] (by decide) (by decide)

/-- C10: for raw steering bytes in `[0, 255]` the wrap-corrected delta always
lies in `[-128, 128]`; a raw delta of exactly `+128` is corrected to `-128`
and a raw delta of exactly `-128` is corrected to `+128`. -/
theorem c10_delta_bounds (last current : Nat) (hl : last ≤ 255) (hc : current ≤ 255) :
    (-128 ≤ wrapDelta last current ∧ wrapDelta last current ≤ 128) ∧
      ((current : Int) - (last : Int) = 128 → wrapDelta last current = -128) ∧
      ((current : Int) - (last : Int) = -128 → wrapDelta last current = 128) := by
  have hl' : (last : Int) ≤ 255 := by exact_mod_cast hl
  have hc' : (current : Int) ≤ 255 := by exact_mod_cast hc
  have h0l : (0 : Int) ≤ (last : Int) := Int.natCast_nonneg last
  have h0c : (0 : Int) ≤ (current : Int) := Int.natCast_nonneg current
  simp only [wrapDelta]
  split_ifs <;> constructor <;> try constructor
  all_goals omega

theorem c10_delta_bounds_witness :
    ((-128 ≤ wrapDelta 0 128 ∧ wrapDelta 0 128 ≤ 128) ∧ wrapDelta 0 128 = -128) ∧
      wrapDelta 128 0 = 128 := by
  have h1 := c10_delta_bounds 0 128 (by decide) (by decide)
  have h2 := c10_delta_bounds 128 0 (by decide) (by decide)
  exact ⟨⟨h1.1, h1.2.1 (by decide)⟩, h2.2.2 (by decide)⟩

/-- C1 counterexample: the qualifying report `[7, 10, 0, 0, 0, 0, 0, 0]` has
raw brake byte 0, yet the decoded brake output is 255, not 0: the code at
line 100 of the source inverts the brake byte, so the output does not equal
`report[4]` directly. -/
theorem c1_brake_not_direct :
    accepts [7, 10, 0, 0, 0, 0, 0, 0] = true ∧
      ([7, 10, 0, 0, 0, 0, 0, 0].getD BRAKE_BYTE_INDEX 0) = 0 ∧
      ((sniff_step initState [7, 10, 0, 0, 0, 0, 0, 0]).2.map AxisReading.brake)
        = some 255 ∧
      (255 : Int) ≠ 0 := by
  decide

/-- C1 amended: for every qualifying report the decoded brake output equals
`255 - report[4]` (inverted, exactly like gas): a raw brake byte of 0 yields
output 255 and a raw brake byte of 255 yields output 0. -/
theorem c1_brake_inverted (s : DecoderState) (data : List Nat)
    (hacc : accepts data = true) :
    ((sniff_step s data).2.map AxisReading.brake)
      = some (255 - (data.getD BRAKE_BYTE_INDEX 0 : Int)) := by
  rw [sniff_step_accepted s data hacc]
  rfl

theorem c1_brake_inverted_witness :
    ((sniff_step initState [7, 10, 0, 0, 255, 0, 0, 0]).2.map AxisReading.brake)
        = some 0 ∧
      ((sniff_step initState [7, 10, 0, 0, 0, 0, 0, 0]).2.map AxisReading.brake)
        = some 255 := by
  have h1 := c1_brake_inverted initState [7, 10, 0, 0, 255, 0, 0, 0] (by decide)
  have h2 := c1_brake_inverted initState [7, 10, 0, 0, 0, 0, 0, 0] (by decide)
  exact ⟨by simpa using h1, by simpa using h2⟩

/-- C2: the wrap-around corrected delta for the raw byte pair `(250, 5)` is
`+11` and for `(5, 250)` is `-11`; decoding from a state whose previous raw
byte is the first of the pair moves the position by exactly that delta
(whenever the result stays inside the clamp range), and running the full
pipeline from the fresh state over the corresponding two-report sequences
lands on position `11` and `-11` respectively. -/
theorem c2_wrap_around (p q : Int)
    (hp1 : STEER_MIN ≤ p + 11) (hp2 : p + 11 ≤ STEER_MAX)
    (hq1 : STEER_MIN ≤ q - 11) (hq2 : q - 11 ≤ STEER_MAX) :
    wrapDelta 250 5 = 11 ∧ wrapDelta 5 250 = -11 ∧
      (decodeSteer ⟨some 250, p⟩ 5).steer_position = p + 11 ∧
      (decodeSteer ⟨some 5, q⟩ 250).steer_position = q - 11 ∧
      (sniff_run initState
        [[7, 250, 0, 0, 0, 0, 0, 0], [7, 5, 0, 0, 0, 0, 0, 0]]).steer_position = 11 ∧
      (sniff_run initState
        [[7, 5, 0, 0, 0, 0, 0, 0], [7, 250, 0, 0, 0, 0, 0, 0]]).steer_position = -11 := by
  have hd1 : wrapDelta 250 5 = 11 := by decide
  have hd2 : wrapDelta 5 250 = -11 := by decide
  refine ⟨hd1, hd2, ?_, ?_, by decide, by decide⟩
  · show clamp (p + wrapDelta 250 5) = p + 11
    rw [hd1]
    exact clamp_of_mem _ hp1 hp2
  · show clamp (q + wrapDelta 5 250) = q - 11
    rw [hd2]
    have : q + -11 = q - 11 := by ring
    rw [this]
    exact clamp_of_mem _ hq1 hq2

theorem c2_wrap_around_witness :
    (decodeSteer ⟨some 250, 0⟩ 5).steer_position = 11 ∧
      (decodeSteer ⟨some 5, 0⟩ 250).steer_position = -11 := by
  have h := c2_wrap_around 0 0 (by decide) (by decide) (by decide) (by decide)
  exact ⟨by simpa using h.2.2.1, by simpa using h.2.2.2.1⟩

/-- C5: at the positive clamp edge `STEER_MAX` any further nonnegative delta
leaves the position pinned at exactly `STEER_MAX` (symmetrically at
`STEER_MIN` for nonpositive deltas); a subsequent opposite-direction delta
moves the position away from the clamp edge itself; and the raw steering byte
is recorded as `last_steer_raw` unconditionally. -/
theorem c5_clamp_policy (last current : Nat) (s : DecoderState) :
    (0 ≤ wrapDelta last current →
      (decodeSteer ⟨some last, STEER_MAX⟩ current).steer_position = STEER_MAX) ∧
      (wrapDelta last current ≤ 0 →
        (decodeSteer ⟨some last, STEER_MIN⟩ current).steer_position = STEER_MIN) ∧
      (wrapDelta last current ≤ 0 → STEER_MIN ≤ STEER_MAX + wrapDelta last current →
        (decodeSteer ⟨some last, STEER_MAX⟩ current).steer_position
          = STEER_MAX + wrapDelta last current) ∧
      (0 ≤ wrapDelta last current → wrapDelta last current ≤ STEER_MAX - STEER_MIN →
        (decodeSteer ⟨some last, STEER_MIN⟩ current).steer_position
          = STEER_MIN + wrapDelta last current) ∧
      (decodeSteer s current).last_steer_raw = some current := by
  refine ⟨?_, ?_, ?_, ?_, ?_⟩
  · intro h
    show clamp (STEER_MAX + wrapDelta last current) = STEER_MAX
    unfold clamp STEER_MIN STEER_MAX at *
    omega
  · intro h
    show clamp (STEER_MIN + wrapDelta last current) = STEER_MIN
    unfold clamp STEER_MIN STEER_MAX at *
    omega
  · intro h1 h2
    show clamp (STEER_MAX + wrapDelta last current) = STEER_MAX + wrapDelta last current
    exact clamp_of_mem _ h2 (by unfold STEER_MAX at *; omega)
  · intro h1 h2
    show clamp (STEER_MIN + wrapDelta last current) = STEER_MIN + wrapDelta last current
    exact clamp_of_mem _ (by unfold STEER_MIN at *; omega)
      (by unfold STEER_MIN STEER_MAX at *; omega)
  · unfold decodeSteer
    cases s.last_steer_raw <;> rfl

theorem c5_clamp_policy_witness :
    (decodeSteer ⟨some 10, STEER_MAX⟩ 15).steer_position = STEER_MAX ∧
      (decodeSteer ⟨some 10, STEER_MAX⟩ 5).steer_position = STEER_MAX + (-5) ∧
      (decodeSteer ⟨some 10, STEER_MIN⟩ 5).steer_position = STEER_MIN ∧
      (decodeSteer ⟨some 10, STEER_MIN⟩ 15).steer_position = STEER_MIN + 5 ∧
      (decodeSteer ⟨some 10, STEER_MAX⟩ 15).last_steer_raw = some 15 := by
  have hup := c5_clamp_policy 10 15 ⟨some 10, STEER_MAX⟩
  have hdown := c5_clamp_policy 10 5 ⟨some 10, STEER_MAX⟩
  have hd5 : wrapDelta 10 5 = -5 := by decide
  have hd15 : wrapDelta 10 15 = 5 := by decide
  refine ⟨hup.1 (by decide), ?_, hdown.2.1 (by decide), ?_, hup.2.2.2.2⟩
  · have := hdown.2.2.1 (by decide) (by decide)
    rwa [hd5] at this
  · have := hup.2.2.2.1 (by decide) (by decide)
    rwa [hd15] at this

/-- C8: for every qualifying report the gas output equals `255 - report[3]`
and is a pure function of the report alone: it does not depend on the decoder
state. -/
theorem c8_gas_inverted (s t : DecoderState) (data : List Nat)
    (hacc : accepts data = true) :
    ((sniff_step s data).2.map AxisReading.gas)
        = some (255 - (data.getD GAS_BYTE_INDEX 0 : Int)) ∧
      ((sniff_step s data).2.map AxisReading.gas)
        = ((sniff_step t data).2.map AxisReading.gas) := by
  rw [sniff_step_accepted s data hacc, sniff_step_accepted t data hacc]
  exact ⟨rfl, rfl⟩

theorem c8_gas_inverted_witness :
    ((sniff_step initState [7, 10, 0, 0, 0, 0, 0, 0]).2.map AxisReading.gas)
        = some 255 ∧
      ((sniff_step ⟨some 99, 500⟩ [7, 10, 0, 255, 0, 0, 0, 0]).2.map AxisReading.gas)
        = some 0 := by
  have h1 := c8_gas_inverted initState initState [7, 10, 0, 0, 0, 0, 0, 0] (by decide)
  have h2 := c8_gas_inverted ⟨some 99, 500⟩ initState [7, 10, 0, 255, 0, 0, 0, 0] (by decide)
  exact ⟨by simpa using h1.1, by simpa using h2.1⟩

/-- C9: on the declared domain (8-byte reports with bytes in `[0, 255]` and a
state whose position satisfies its range invariant) the decoder is total and
deterministic: every qualifying report yields a reading with steering in
`[STEER_MIN, STEER_MAX]` and gas and brake in `[0, 255]`, and equal inputs
yield equal outputs and equal final states. -/
theorem c9_total_valid (s s2 : DecoderState) (data : List Nat)
    (hlen : data.length = 8) (hb : ∀ b ∈ data, b ≤ 255)
    (hmin : STEER_MIN ≤ s.steer_position) (hmax : s.steer_position ≤ STEER_MAX)
    (hacc : accepts data = true) (heq : s2 = s) :
    (∃ r : AxisReading, (sniff_step s data).2 = some r ∧
        STEER_MIN ≤ r.steering ∧ r.steering ≤ STEER_MAX ∧
        0 ≤ r.gas ∧ r.gas ≤ 255 ∧ 0 ≤ r.brake ∧ r.brake ≤ 255) ∧
      sniff_step s2 data = sniff_step s data := by
  refine ⟨?_, by rw [heq]⟩
  have hgas : data.getD GAS_BYTE_INDEX 0 ≤ 255 := by
    have hm : data.getD GAS_BYTE_INDEX 0 ∈ data := by
      rw [List.getD_eq_getElem data 0 (by rw [hlen]; decide)]
      exact List.getElem_mem _
    exact hb _ hm
  have hbrake : data.getD BRAKE_BYTE_INDEX 0 ≤ 255 := by
    have hm : data.getD BRAKE_BYTE_INDEX 0 ∈ data := by
      rw [List.getD_eq_getElem data 0 (by rw [hlen]; decide)]
      exact List.getElem_mem _
    exact hb _ hm
  rw [sniff_step_accepted s data hacc]
  refine ⟨_, rfl, ?_, ?_, ?_, ?_, ?_, ?_⟩
  · have h := (sniff_step_fst_pos_inv s data hmin hmax).1
    rwa [sniff_step_accepted s data hacc] at h
  · have h := (sniff_step_fst_pos_inv s data hmin hmax).2
    rwa [sniff_step_accepted s data hacc] at h
  · have : (data.getD GAS_BYTE_INDEX 0 : Int) ≤ 255 := by exact_mod_cast hgas
    simp only
    omega
  · have : (0 : Int) ≤ (data.getD GAS_BYTE_INDEX 0 : Int) := Int.natCast_nonneg _
    simp only
    omega
  · have : (data.getD BRAKE_BYTE_INDEX 0 : Int) ≤ 255 := by exact_mod_cast hbrake
    simp only
    omega
  · have : (0 : Int) ≤ (data.getD BRAKE_BYTE_INDEX 0 : Int) := Int.natCast_nonneg _
    simp only
    omega

theorem c9_total_valid_witness :
    ∃ r : AxisReading, (sniff_step ⟨some 20, 100⟩ [7, 30, 0, 40, 50, 0, 0, 0]).2 = some r ∧
      STEER_MIN ≤ r.steering ∧ r.steering ≤ STEER_MAX ∧
      0 ≤ r.gas ∧ r.gas ≤ 255 ∧ 0 ≤ r.brake ∧ r.brake ≤ 255 :=
  (c9_total_valid ⟨some 20, 100⟩ ⟨some 20, 100⟩ [7, 30, 0, 40, 50, 0, 0, 0]
    (by decide) (by decide) (by decide) (by decide) (by decide) rfl).1

end ESP32
